import Mathlib

/-!
Verification development for the stock-gate backend (Express/Postgres service).
The JavaScript source is embedded shallowly: strings are lists of characters,
tables are lists of records, the Postgres transaction of the add-stock route is
modelled by explicit state passing with an error-injection schedule, and the
external semantic oracle is a function parameter returning an optional parsed
response (none models network failure, timeout, or an unparsable body, all of
which the adapter catches and converts to null).

Numeric note: the service computes similarity scores with ECMAScript binary64
floats.  The embedding idealizes that arithmetic as exact rational arithmetic,
computed over a common denominator so that scores are kernel-evaluable
integers.  The idealization is not bit-faithful: when the exact blend lies
within a few units in the last place of a half-integer, the binary64 score can
round to the neighbouring integer (for instance, for the normalized pair of
an eight-character and a seven-character string with edit distance 5 and no
token or number overlap, the exact blend is 0.225 and rounds to 23, while the
binary64 blend is slightly below 0.225 and rounds to 22).  Every property
proved below is insensitive to this difference: the range bounds and clamping,
the perfect diagonal score, the routing and fallback logic, and the concrete
evaluations used in witnesses, whose blends are not near half-integers.  An
exact-value comparison of the scorer against a reference formula would be
sensitive to it and is therefore not stated here.
-/

namespace StockGate

/-- Strings are modelled as lists of characters. -/
abbrev Str := List Char

/-- Whitespace class of the ECMAScript regular expression token backslash-s
(space, tab, line feed, carriage return, vertical tab, form feed, and the
Unicode space separators recognised by ECMAScript). -/
def isWS (c : Char) : Bool :=
  decide (c.toNat = 32 ∨ c.toNat = 9 ∨ c.toNat = 10 ∨ c.toNat = 13 ∨
    c.toNat = 11 ∨ c.toNat = 12 ∨ c.toNat = 160 ∨ c.toNat = 5760 ∨
    (8192 ≤ c.toNat ∧ c.toNat ≤ 8202) ∨ c.toNat = 8232 ∨ c.toNat = 8233 ∨
    c.toNat = 8239 ∨ c.toNat = 8287 ∨ c.toNat = 12288 ∨ c.toNat = 65279)

/-- Characters kept by the character class a-z0-9 of the normalizer. -/
def isKeep (c : Char) : Bool :=
  decide ((97 ≤ c.toNat ∧ c.toNat ≤ 122) ∨ (48 ≤ c.toNat ∧ c.toNat ≤ 57))

/-- ASCII lower-casing, modelling String.prototype.toLowerCase on the
characters relevant to the normalizer (non-ASCII case mappings are immaterial:
any non-ASCII letter, lower-cased or not, is replaced by a space next). -/
def jsToLower (c : Char) : Char :=
  if 65 ≤ c.toNat ∧ c.toNat ≤ 90 then Char.ofNat (c.toNat + 32) else c

/-- Replacement pass of the normalizer: every character that is neither in
a-z0-9 nor whitespace becomes a space (the regex replace with target space). -/
def replChar (c : Char) : Char := if isKeep c || isWS c then c else ' '

/-- Collapsing pass: every maximal run of whitespace becomes a single space
(the regex replace of one-or-more whitespace with a single space), written as
a left-to-right scan with a flag recording whether a run is in progress. -/
def collapseAux : Bool → List Char → List Char
  | _, [] => []
  | inRun, c :: cs =>
    if isWS c then
      if inRun then collapseAux true cs else ' ' :: collapseAux true cs
    else c :: collapseAux false cs

/-- Collapse whitespace runs to single spaces. -/
def collapseWS (l : Str) : Str := collapseAux false l

/-- String.prototype.trim: strip leading and trailing whitespace. -/
def trimWS (l : Str) : Str :=
  ((l.dropWhile isWS).reverse.dropWhile isWS).reverse

/-- The normalizeText helper of the backend: lower-case, replace every
non-alphanumeric character by a space, collapse whitespace runs, trim. -/
def normalizeText (l : Str) : Str :=
  trimWS (collapseWS ((l.map jsToLower).map replChar))

/-- String.prototype.split at a single space character: pieces between
space occurrences, in order (empty pieces included, as in ECMAScript). -/
def splitSpace : List Char → List Str
  | [] => [[]]
  | c :: cs =>
    if c = ' ' then [] :: splitSpace cs
    else
      match splitSpace cs with
      | t :: ts => (c :: t) :: ts
      | [] => [[c]]

/-- Fuelled form of the Levenshtein recurrence computed by the dynamic
program of the source: dp i j is the minimum of deletion, insertion and
substitution cost, with the base rows given by the string lengths.  The fuel
argument only makes the recursion structural; it is always called with enough
fuel for the base cases to be the ones of the source. -/
def levFuel : Nat → List Char → List Char → Nat
  | _, [], b => b.length
  | _, a, [] => a.length
  | 0, _, _ => 0
  | fuel + 1, a₁ :: a, b₁ :: b =>
    let cost := if a₁ = b₁ then 0 else 1
    min (levFuel fuel a (b₁ :: b) + 1)
      (min (levFuel fuel (a₁ :: a) b + 1) (levFuel fuel a b + cost))

/-- Levenshtein distance (unit-cost insert, delete, substitute), the function
computed by the levenshtein helper of the backend. -/
def levenshtein (a b : Str) : Nat := levFuel (a.length + b.length) a b

/-- Scanner for the number-extraction regex (one or more digits, optionally
followed by a point and one or more digits, maximal munch, global scan):
acc is the number currently being read, inFrac records whether its decimal
point has been consumed. -/
def extractAux : Str → Bool → List Char → List Str
  | acc, _, [] => if acc = [] then [] else [acc]
  | acc, inFrac, c :: cs =>
    if c.isDigit then extractAux (acc ++ [c]) inFrac cs
    else if acc ≠ [] && !inFrac && c = '.' then
      match cs with
      | [] => [acc]
      | d :: cs₂ =>
        if d.isDigit then extractAux (acc ++ ['.', d]) true cs₂
        else acc :: extractAux [] false (d :: cs₂)
    else if acc = [] then extractAux [] false cs
    else acc :: extractAux [] false cs

/-- The extractNumbers helper: list of maximal numeric tokens of a string. -/
def extractNumbers (l : Str) : List Str := extractAux [] false l

/-- Shared-number test of the similarity scorer: some extracted numeric token
of the query is literally among the tokens extracted from the candidate. -/
def hasNumberMatch (query candidate : Str) : Bool :=
  (extractNumbers query).any (fun n => decide (n ∈ extractNumbers candidate))

/-- ECMAScript logical-or with the fallback 1 applied to a number that is
zero (the pattern value-or-one of the source). -/
def jsOr1 (n : Nat) : Nat := if n = 0 then 1 else n

/-- Math.round of the exact quotient n over d for positive d (ECMAScript
rounds half towards positive infinity): the floor of n over d plus one half,
computed on integers as the floor division of 2n plus d by 2d. -/
def jsRoundDiv (n d : ℤ) : ℤ := Int.fdiv (2 * n + d) (2 * d)

/-- The similarityScore helper of the backend.  Both inputs are normalized;
if either is empty the score is 0.  Otherwise, writing d for the Levenshtein
distance of the normalized strings, m for their maximum length (or 1),
o and u for the overlap and union sizes of their space-token sets (union or
1), and B for 1 exactly when a numeric token is shared between the raw
strings: the source blends 0.6 times (1 - d/m) plus 0.4 times (o/u) plus
0.1 times B, multiplies by 100, rounds, and clamps into [0, 100].  One
hundred times the blend equals (60(m-d)u + 40om + 10Bmu) / (mu) exactly,
which is how the rounding is computed here over the integers.  This carries
the blend of the source in exact rational arithmetic where the source uses
binary64 operations; see the numeric note at the top of the file for the
one-unit rounding difference this idealization can introduce near
half-integer blends. -/
def similarityScore (query candidate : Str) : ℤ :=
  let q := normalizeText query
  let c := normalizeText candidate
  if q = [] ∨ c = [] then 0
  else
    let distance := levenshtein q c
    let maxLen := jsOr1 (max q.length c.length)
    let qTokens := (splitSpace q).toFinset
    let cTokens := (splitSpace c).toFinset
    let overlap := (qTokens ∩ cTokens).card
    let union := jsOr1 (qTokens ∪ cTokens).card
    let bonus10 : ℤ := if hasNumberMatch query candidate then 1 else 0
    let num : ℤ := 60 * ((maxLen : ℤ) - (distance : ℤ)) * (union : ℤ) +
      40 * (overlap : ℤ) * (maxLen : ℤ) + 10 * bonus10 * (maxLen : ℤ) * (union : ℤ)
    let den : ℤ := (maxLen : ℤ) * (union : ℤ)
    max 0 (min 100 (jsRoundDiv num den))

/-! ## Data model

Rows of the three tables used by the routes under verification.  Serial
identifiers are modelled by a next-identifier counter in the database state;
the transaction timestamp CURRENT_TIMESTAMP is modelled by a clock value
carried in the state. -/

/-- A row of the products table. -/
structure Product where
  id : ℤ
  reference : Str
  description : Str
  quantity : ℤ
  unit_price : ℚ
  unit : Str
  category : Str
  last_updated : Nat
deriving DecidableEq

/-- A row of the invoices table (the columns written by the add-stock
route). -/
structure Invoice where
  invoice_number : Option Str
  supplier_name : Option Str
  total_amount : ℚ
  invoice_date : Option Str
deriving DecidableEq

/-- A row of the supplier_mappings table (the columns read and written by
the routes; the serial id and creation timestamp are never consulted). -/
structure Mapping where
  supplier_name : Str
  supplier_name_normalized : Str
  product_id : ℤ
  supplier_id : Option Str
deriving DecidableEq

/-- The database state: the three tables, the next product identifier, and
the transaction clock. -/
structure DB where
  products : List Product
  invoices : List Invoice
  mappings : List Mapping
  nextProductId : ℤ
  now : Nat
deriving DecidableEq

/-- A line item of an add-stock request.  The quantity and unit price fields
hold the result of parseInt and parseFloat (none models NaN or an absent
field; the source then applies logical-or with 0). -/
structure StockItem where
  description : Str
  quantity : Option ℤ
  unit_price : Option ℚ
  unit : Option Str
  reference : Option Str
deriving DecidableEq

/-- Invoice metadata of an add-stock request (total_ttc already passed
through parseFloat, none modelling NaN). -/
structure InvoiceInfo where
  invoice_number : Option Str
  supplier_name : Option Str
  buyer_name : Option Str
  invoice_date : Option Str
  total_ttc : Option ℚ
deriving DecidableEq

/-- ECMAScript logical-or on an optional string against an optional
fallback: an absent or empty string selects the fallback. -/
def jsOrStrOpt (a b : Option Str) : Option Str :=
  match a with
  | some s => if s = [] then b else some s
  | none => b

/-- ECMAScript logical-or on an optional string against a string fallback. -/
def jsOrStrD (a : Option Str) (d : Str) : Str :=
  match a with
  | some s => if s = [] then d else s
  | none => d

/-! ## The add-stock transaction

The route opens a transaction, optionally inserts one invoice row, then for
each item selects the products with the exact description, updates the
quantity of the first match or inserts a new row, and commits; any error
rolls the transaction back and answers with a single transaction-failed
error.  Each query runs against the working state of the transaction; a
failure schedule (by query index) injects database errors. -/

/-- Insert the invoice row written by the add-stock route: supplier name is
the supplier name or else the buyer name or else null, the invoice date is
the supplied date or else null (a falsy date becomes null), the total
defaults to 0 on parse failure. -/
def insertInvoice (info : InvoiceInfo) (db : DB) : DB :=
  { db with
    invoices := db.invoices ++
      [{ invoice_number := info.invoice_number,
         supplier_name := jsOrStrOpt info.supplier_name (jsOrStrOpt info.buyer_name none),
         total_amount := info.total_ttc.getD 0,
         invoice_date := jsOrStrOpt info.invoice_date none }] }

/-- The per-item select: all product rows whose description equals the item
description, in table order. -/
def selectByDescription (db : DB) (d : Str) : List Product :=
  db.products.filter (fun p => decide (p.description = d))

/-- The update branch: set the quantity of the row with the given id and
stamp its last_updated with the transaction clock. -/
def updateQuantity (db : DB) (pid : ℤ) (newQty : ℤ) : DB :=
  { db with
    products := db.products.map (fun p =>
      if p.id = pid then { p with quantity := newQty, last_updated := db.now } else p) }

/-- The insert branch: append a new product row with the fields of the item,
category General, a fresh serial id and the default timestamp. -/
def insertProduct (db : DB) (item : StockItem) : DB :=
  { db with
    products := db.products ++
      [{ id := db.nextProductId,
         reference := jsOrStrD item.reference [],
         description := item.description,
         quantity := item.quantity.getD 0,
         unit_price := item.unit_price.getD 0,
         unit := jsOrStrD item.unit [],
         category := "General".data,
         last_updated := db.now }],
    nextProductId := db.nextProductId + 1 }

/-- The upsert decision of the loop body, applied to the rows returned by
the select: update the quantity of the first returned row by adding the
parsed item quantity, or insert a new row when none was returned. -/
def applyUpsert (db : DB) (item : StockItem) (rows : List Product) : DB :=
  match rows with
  | p :: _ => updateQuantity db p.id (p.quantity + item.quantity.getD 0)
  | [] => insertProduct db item

/-- One loop iteration as a pure database transformation: select by the item
description, then update or insert. -/
def applyItem (db : DB) (item : StockItem) : DB :=
  applyUpsert db item (selectByDescription db item.description)

/-- Working state of an open transaction: the tentative database and the
number of queries executed so far. -/
structure TxState where
  db : DB
  steps : Nat
deriving DecidableEq

/-- Run one query inside the transaction: the scheduled failures throw, a
successful query transforms the working database and advances the query
counter. -/
def txStep (sched : Nat → Bool) (s : TxState) (f : DB → DB) : Except Unit TxState :=
  if sched s.steps then Except.error () else Except.ok { db := f s.db, steps := s.steps + 1 }

/-- One item of the loop: the select query (a read, modelled as the identity
on the working database), then the update-or-insert query chosen from the
selected rows. -/
def runItem (sched : Nat → Bool) (item : StockItem) (s : TxState) : Except Unit TxState := do
  let s₁ ← txStep sched s id
  txStep sched s₁ (fun db => applyItem db item)

/-- The item loop of the transaction. -/
def runItems (sched : Nat → Bool) : List StockItem → TxState → Except Unit TxState
  | [], s => Except.ok s
  | it :: rest, s => do runItems sched rest (← runItem sched it s)

/-- The whole transaction body: the optional invoice insert followed by the
item loop, starting from the request database with the query counter at 0. -/
def runAddStock (sched : Nat → Bool) (items : List StockItem) (info : Option InvoiceInfo)
    (db₀ : DB) : Except Unit TxState :=
  (match info with
   | some i => txStep sched { db := db₀, steps := 0 } (insertInvoice i)
   | none => Except.ok { db := db₀, steps := 0 }) >>= runItems sched items

/-- The add-stock route: commit the working state on success; on any error
roll back (the request database is returned untouched) and answer with the
transaction-failed error.  The second component is the success flag of the
response, the third its message. -/
def addStock (sched : Nat → Bool) (items : List StockItem) (info : Option InvoiceInfo)
    (db₀ : DB) : DB × Bool × Str :=
  match runAddStock sched items info db₀ with
  | Except.ok s => (s.db, true, "Stock updated successfully".data)
  | Except.error _ => (db₀, false, "Transaction failed".data)

/-! ## Product matching

The match-products route fetches the catalog projection once, then per item:
a mapping lookup on the normalized description short-circuits to a mapping
result with score 100 and an empty suggestions list; otherwise the catalog is
scored against the description, sorted by score descending (stable), cut to
the top five, the oracle is consulted unless the top score is already 100,
and the result is assembled from the oracle answer and the top candidate. -/

/-- The catalog projection selected by the route (id, reference,
description, category). -/
structure CatalogRow where
  id : ℤ
  reference : Str
  description : Str
  category : Str
deriving DecidableEq

/-- A catalog row together with its similarity score. -/
structure ScoredProduct where
  id : ℤ
  reference : Str
  description : Str
  category : Str
  score : ℤ
deriving DecidableEq

/-- The parsed oracle response shape: best match id (null allowed),
confidence, reasoning. -/
structure AIResponse where
  best_match_id : Option ℤ
  confidence : ℤ
  reasoning : Str
deriving DecidableEq

/-- The semantic oracle: from the item description and the candidate list to
an optional parsed response.  A none return models every failure the adapter
catches: network failure, timeout, or a body that does not parse as JSON. -/
def Oracle := Str → List ScoredProduct → Option AIResponse

/-- The permanently unavailable oracle. -/
def oracleDown : Oracle := fun _ _ => none

/-- The findBestMatchWithGemini adapter: an empty candidate list
short-circuits to null; otherwise the oracle is called and any caught
failure yields null. -/
def findBestMatchWithGemini (oracle : Oracle) (name : Str)
    (candidates : List ScoredProduct) : Option AIResponse :=
  if candidates = [] then none else oracle name candidates

/-- The catalog projection of the database. -/
def catalog (db : DB) : List CatalogRow :=
  db.products.map (fun p => ⟨p.id, p.reference, p.description, p.category⟩)

/-- The candidate text scored against the query: reference, a space, and the
description, trimmed. -/
def candText (p : CatalogRow) : Str := trimWS (p.reference ++ ' ' :: p.description)

/-- Score one catalog row against the item description. -/
def mkScored (description : Str) (p : CatalogRow) : ScoredProduct :=
  { id := p.id, reference := p.reference, description := p.description,
    category := p.category, score := similarityScore description (candText p) }

/-- Stable descending insertion by score: the new element goes after every
element of not-smaller score, as the stable ECMAScript sort with the
comparator on scores orders equal-scored elements by original position. -/
def insertScored (x : ScoredProduct) : List ScoredProduct → List ScoredProduct
  | [] => [x]
  | y :: ys => if y.score < x.score then x :: y :: ys else y :: insertScored x ys

/-- Stable sort by score descending (insertion sort, processing the list in
order). -/
def sortScored (l : List ScoredProduct) : List ScoredProduct :=
  l.foldl (fun acc x => insertScored x acc) []

/-- The candidate ranking of the route: score the whole catalog, sort by
score descending, keep the top five. -/
def rankCandidates (db : DB) (description : Str) : List ScoredProduct :=
  (sortScored ((catalog db).map (mkScored description))).take 5

/-- Forget the score of a scored candidate. -/
def stripScored (s : ScoredProduct) : CatalogRow :=
  { id := s.id, reference := s.reference, description := s.description,
    category := s.category }

/-- The mapping lookup of the route: the first supplier mapping whose
normalized name equals the key, joined to the product row it references. -/
def lookupMapping (db : DB) (normalized : Str) : Option CatalogRow :=
  match db.mappings.find? (fun m => decide (m.supplier_name_normalized = normalized)) with
  | none => none
  | some m =>
    match db.products.find? (fun p => decide (p.id = m.product_id)) with
    | none => none
    | some p => some ⟨p.id, p.reference, p.description, p.category⟩

/-- A per-item result of the match-products route. -/
structure MatchResult where
  source : Str
  matched : Option CatalogRow
  score : ℤ
  ai_reasoning : Str
  suggestions : List ScoredProduct
deriving DecidableEq

/-- The per-item logic of the match-products route.  A mapping hit answers
immediately with score 100 and no suggestions.  Otherwise the top five
candidates are computed; the oracle is consulted only when there is a
candidate and the top score is below 100; a truthy best-match id is looked
up among the candidates; when that lookup fails the top candidate is used;
the source is the oracle source exactly when the response carried a truthy
best-match id, the score is the oracle confidence or else the final match
score or else 0, and the suggestions are the top three candidates. -/
def matchItem (oracle : Oracle) (db : DB) (description : Str) : MatchResult :=
  let normalized := normalizeText description
  match (if normalized = [] then none else lookupMapping db normalized) with
  | some row =>
    { source := "mapping".data, matched := some row, score := 100,
      ai_reasoning := "Pre-defined manual mapping".data, suggestions := [] }
  | none =>
    let scored := rankCandidates db description
    let aiResponse : Option AIResponse :=
      match scored with
      | [] => none
      | top :: _ =>
        if top.score < 100 then findBestMatchWithGemini oracle description scored else none
    let found : Option ScoredProduct :=
      match aiResponse with
      | some r =>
        match r.best_match_id with
        | some k => if k ≠ 0 then scored.find? (fun p => decide (p.id = k)) else none
        | none => none
      | none => none
    let finalMatch : Option ScoredProduct :=
      match found with
      | some f => some f
      | none => scored.head?
    { source :=
        match aiResponse with
        | some r =>
          match r.best_match_id with
          | some k => if k ≠ 0 then "ai-gemini".data else "suggestion".data
          | none => "suggestion".data
        | none => "suggestion".data,
      matched := finalMatch.map stripScored,
      score :=
        match aiResponse with
        | some r => if r.confidence ≠ 0 then r.confidence else (finalMatch.map (·.score)).getD 0
        | none => (finalMatch.map (·.score)).getD 0,
      ai_reasoning :=
        match aiResponse with
        | some r => if r.reasoning = [] then "Mathematical similarity".data else r.reasoning
        | none => "Mathematical similarity".data,
      suggestions := scored.take 3 }

/-- The match-products route: the per-item logic mapped over the items in
order (the description of a null item defaults to the empty string). -/
def matchProducts (oracle : Oracle) (db : DB) (items : List (Option Str)) : List MatchResult :=
  items.map (fun it => matchItem oracle db (it.getD []))

/-! ## Saving mappings

The save-mapping route validates that the supplier name and the product id
are truthy, then upserts on the normalized name: a conflicting row keeps its
stored supplier name and gets the new product id and supplier id; otherwise
a new row is inserted. -/

/-- The upsert on the supplier_mappings rows keyed by the normalized name. -/
def saveMappingRows (rows : List Mapping) (name : Str) (pid : ℤ) (sid : Option Str) :
    List Mapping :=
  let key := normalizeText name
  if (rows.find? (fun m => decide (m.supplier_name_normalized = key))).isSome then
    rows.map (fun m =>
      if m.supplier_name_normalized = key then
        { m with product_id := pid, supplier_id := sid }
      else m)
  else
    rows ++ [{ supplier_name := name, supplier_name_normalized := normalizeText name,
               product_id := pid, supplier_id := sid }]

/-- The save-mapping route: none models the 400 validation answer for a
missing (falsy) supplier name or product id; otherwise the upsert runs. -/
def saveMapping (db : DB) (name : Str) (pid : ℤ) (sid : Option Str) : Option DB :=
  if name = [] ∨ pid = 0 then none
  else some { db with mappings := saveMappingRows db.mappings name pid sid }

/-! ## Concrete sample data

Small concrete databases, items and oracles used to instantiate the
theorems; strings are kept short so that the kernel can evaluate the
naive Levenshtein recursion. -/

/-- A schedule with no injected failures. -/
def noFail : Nat → Bool := fun _ => false

/-- A catalog product with description ab. -/
def sampleProduct : Product :=
  { id := 1, reference := "r".data, description := "ab".data, quantity := 3,
    unit_price := 5, unit := "u".data, category := "General".data, last_updated := 0 }

/-- A database holding the one sample product. -/
def sampleDb1 : DB :=
  { products := [sampleProduct], invoices := [], mappings := [],
    nextProductId := 2, now := 7 }

/-- A line item whose description matches the sample product exactly. -/
def sampleItem : StockItem :=
  { description := "ab".data, quantity := some 4, unit_price := some 2,
    unit := none, reference := none }

/-- Invoice metadata for the sample requests. -/
def sampleInfo : InvoiceInfo :=
  { invoice_number := some "INV9".data, supplier_name := some "ACME".data,
    buyer_name := none, invoice_date := some "2024-01-02".data, total_ttc := some 12 }

/-- The reconciliation item of the double-submission scenario. -/
def widgetItem : StockItem :=
  { description := "Widget A".data, quantity := some 5, unit_price := some 2,
    unit := none, reference := none }

/-- An empty catalog. -/
def emptyDb : DB :=
  { products := [], invoices := [], mappings := [], nextProductId := 1, now := 0 }

/-- An oracle that always answers with best match id 99 and confidence 77. -/
def oracle99 : Oracle := fun _ _ =>
  some { best_match_id := some 99, confidence := 77, reasoning := [] }

/-- The stored sample mapping row from the normalized label a to the sample
product. -/
def sampleMapping : Mapping :=
  { supplier_name := "A!".data, supplier_name_normalized := "a".data,
    product_id := 1, supplier_id := none }

/-- The sample database extended with the stored sample mapping. -/
def mappedDb : DB :=
  { products := [sampleProduct], invoices := [], mappings := [sampleMapping],
    nextProductId := 2, now := 0 }

/-- A second catalog product, with id 2. -/
def sampleProduct2 : Product :=
  { id := 2, reference := "s".data, description := "cd".data, quantity := 1,
    unit_price := 3, unit := "u".data, category := "General".data, last_updated := 0 }

/-- A database holding two products, ids 1 and 2. -/
def twoProductDb : DB :=
  { products := [sampleProduct, sampleProduct2], invoices := [], mappings := [],
    nextProductId := 3, now := 0 }

/-- Sortedness by score, descending (with ties allowed). -/
def ScoreSorted (l : List ScoredProduct) : Prop :=
  List.Pairwise (fun a b => b.score ≤ a.score) l

/-! ## Properties of the normalizer -/

/-- Adjacency invariant of collapsed text: no two consecutive whitespace
characters. -/
def SpacedOK (l : Str) : Prop :=
  List.Chain' (fun a b => ¬(isWS a = true ∧ isWS b = true)) l

theorem isWS_space : isWS ' ' = true := by decide

theorem isKeep_not_isWS {c : Char} (h : isKeep c = true) : isWS c = false := by
  simp only [isKeep, decide_eq_true_eq] at h
  simp only [isWS, decide_eq_false_iff_not]
  omega

theorem jsToLower_fix {c : Char} (h : c = ' ' ∨ isKeep c = true) : jsToLower c = c := by
  rcases h with rfl | h
  · decide
  · simp only [isKeep, decide_eq_true_eq] at h
    rw [jsToLower, if_neg]
    omega

theorem replChar_fix {c : Char} (h : c = ' ' ∨ isKeep c = true) : replChar c = c := by
  rcases h with rfl | h
  · decide
  · simp [replChar, h]

theorem map_id_of {α : Type*} {f : α → α} {l : List α} (h : ∀ c ∈ l, f c = c) :
    l.map f = l := by
  rw [List.map_congr_left h]
  exact List.map_id _

theorem mem_collapseAux {c : Char} : ∀ {b : Bool} {l : Str},
    c ∈ collapseAux b l → c = ' ' ∨ (c ∈ l ∧ isWS c = false) := by
  intro b l
  induction l generalizing b with
  | nil => simp [collapseAux]
  | cons d cs ih =>
    intro h
    by_cases hws : isWS d
    · cases b with
      | true =>
        simp only [collapseAux, hws, if_true, if_pos] at h
        rcases ih h with h' | ⟨hc, hn⟩
        · exact Or.inl h'
        · exact Or.inr ⟨List.mem_cons_of_mem _ hc, hn⟩
      | false =>
        simp only [collapseAux, hws, if_pos, if_false] at h
        rcases List.mem_cons.mp h with rfl | h'
        · exact Or.inl rfl
        · rcases ih h' with h'' | ⟨hc, hn⟩
          · exact Or.inl h''
          · exact Or.inr ⟨List.mem_cons_of_mem _ hc, hn⟩
    · simp only [collapseAux, hws, if_neg, Bool.false_eq_true, if_false] at h
      rcases List.mem_cons.mp h with rfl | h'
      · exact Or.inr ⟨List.mem_cons_self _ _, Bool.not_eq_true _ ▸ (by simpa using hws)⟩
      · rcases ih h' with h'' | ⟨hc, hn⟩
        · exact Or.inl h''
        · exact Or.inr ⟨List.mem_cons_of_mem _ hc, hn⟩

theorem head_collapseAux_true : ∀ {l : Str} {c : Char},
    (collapseAux true l).head? = some c → isWS c = false := by
  intro l
  induction l with
  | nil => intro c h; simp [collapseAux] at h
  | cons d cs ih =>
    intro c h
    by_cases hws : isWS d
    · rw [show collapseAux true (d :: cs) = collapseAux true cs by
        simp [collapseAux, hws]] at h
      exact ih h
    · rw [show collapseAux true (d :: cs) = d :: collapseAux false cs by
        simp [collapseAux, hws]] at h
      simp only [List.head?_cons, Option.some.injEq] at h
      subst h
      simpa using hws

theorem spacedOK_collapseAux : ∀ (b : Bool) (l : Str), SpacedOK (collapseAux b l) := by
  intro b l
  induction l generalizing b with
  | nil => simp [collapseAux, SpacedOK]
  | cons d cs ih =>
    by_cases hws : isWS d
    · cases b with
      | true => simpa [collapseAux, hws] using ih true
      | false =>
        rw [show collapseAux false (d :: cs) = ' ' :: collapseAux true cs by
          simp [collapseAux, hws]]
        rw [SpacedOK, List.chain'_cons']
        refine ⟨?_, ih true⟩
        intro y hy
        rw [head_collapseAux_true hy]
        simp
    · rw [show collapseAux b (d :: cs) = d :: collapseAux false cs by
        cases b <;> simp [collapseAux, hws]]
      rw [SpacedOK, List.chain'_cons']
      refine ⟨?_, ih false⟩
      intro y hy
      simp [hws]

theorem collapseAux_true_eq_false {l : Str}
    (h : ∀ c, l.head? = some c → isWS c = false) :
    collapseAux true l = collapseAux false l := by
  cases l with
  | nil => rfl
  | cons d cs => simp [collapseAux, h d rfl]

theorem collapseAux_eq_self : ∀ {l : Str},
    (∀ c ∈ l, isWS c = true → c = ' ') → SpacedOK l → collapseAux false l = l := by
  intro l
  induction l with
  | nil => intro _ _; rfl
  | cons d cs ih =>
    intro hmem hch
    rcases (List.chain'_cons'.mp hch) with ⟨hhd, htl⟩
    by_cases hws : isWS d
    · have hd : d = ' ' := hmem d (List.mem_cons_self _ _) (by simpa using hws)
      have hcs : ∀ c, cs.head? = some c → isWS c = false := by
        intro c hc
        have := hhd c (by simpa using hc)
        simp only [hws, true_and] at this
        simpa using this
      rw [show collapseAux false (d :: cs) = ' ' :: collapseAux true cs by
        simp [collapseAux, hws]]
      rw [collapseAux_true_eq_false hcs,
        ih (fun c hc => hmem c (List.mem_cons_of_mem _ hc)) htl, hd]
    · rw [show collapseAux false (d :: cs) = d :: collapseAux false cs by
        simp [collapseAux, hws]]
      rw [ih (fun c hc => hmem c (List.mem_cons_of_mem _ hc)) htl]

theorem head_dropWhile {p : Char → Bool} : ∀ {l : Str} {c : Char},
    (l.dropWhile p).head? = some c → p c = false := by
  intro l
  induction l with
  | nil => intro c h; simp at h
  | cons d cs ih =>
    intro c h
    by_cases hp : p d
    · rw [List.dropWhile_cons, if_pos hp] at h
      exact ih h
    · rw [List.dropWhile_cons, if_neg hp] at h
      simp only [List.head?_cons, Option.some.injEq] at h
      subst h
      simpa using hp

theorem getLast_dropWhile {p : Char → Bool} : ∀ {l : Str},
    l.dropWhile p ≠ [] → (l.dropWhile p).getLast? = l.getLast? := by
  intro l
  induction l with
  | nil => intro h; simp at h
  | cons d cs ih =>
    intro h
    by_cases hp : p d
    · rw [List.dropWhile_cons, if_pos hp] at h ⊢
      have hcs : cs ≠ [] := by
        intro he
        rw [he] at h
        simp at h
      rw [ih h]
      cases cs with
      | nil => exact absurd rfl hcs
      | cons e es => rw [List.getLast?_cons_cons]
    · rw [List.dropWhile_cons, if_neg hp]

theorem spacedOK_dropWhile {p : Char → Bool} {l : Str} (h : SpacedOK l) :
    SpacedOK (l.dropWhile p) := by
  induction l with
  | nil => simpa using h
  | cons d cs ih =>
    by_cases hp : p d
    · rw [List.dropWhile_cons, if_pos hp]
      exact ih h.tail
    · rw [List.dropWhile_cons, if_neg hp]
      exact h

theorem spacedOK_reverse {l : Str} (h : SpacedOK l) : SpacedOK l.reverse := by
  rw [SpacedOK, List.chain'_reverse]
  exact h.imp (fun a b hab hba => hab ⟨hba.2, hba.1⟩)

theorem mem_trimWS {l : Str} {c : Char} (h : c ∈ trimWS l) : c ∈ l := by
  unfold trimWS at h
  rw [List.mem_reverse] at h
  have h1 := (List.dropWhile_sublist (l := (l.dropWhile isWS).reverse) isWS).mem h
  rw [List.mem_reverse] at h1
  exact (List.dropWhile_sublist (l := l) isWS).mem h1

theorem spacedOK_trimWS {l : Str} (h : SpacedOK l) : SpacedOK (trimWS l) :=
  spacedOK_reverse (spacedOK_dropWhile (spacedOK_reverse (spacedOK_dropWhile h)))

theorem head_trimWS {l : Str} {c : Char} (h : (trimWS l).head? = some c) :
    isWS c = false := by
  unfold trimWS at h
  rw [List.head?_reverse] at h
  have hne : (l.dropWhile isWS).reverse.dropWhile isWS ≠ [] := by
    intro he
    rw [he] at h
    simp at h
  rw [getLast_dropWhile hne, List.getLast?_reverse] at h
  exact head_dropWhile h

theorem getLast_trimWS {l : Str} {c : Char} (h : (trimWS l).getLast? = some c) :
    isWS c = false := by
  unfold trimWS at h
  rw [List.getLast?_reverse] at h
  exact head_dropWhile h

theorem dropWhile_eq_self_of_head {p : Char → Bool} {l : Str}
    (h : ∀ c, l.head? = some c → p c = false) : l.dropWhile p = l := by
  cases l with
  | nil => rfl
  | cons d cs => rw [List.dropWhile_cons, if_neg (by simp [h d rfl])]

theorem trimWS_eq_self {l : Str}
    (h1 : ∀ c, l.head? = some c → isWS c = false)
    (h2 : ∀ c, l.getLast? = some c → isWS c = false) : trimWS l = l := by
  unfold trimWS
  rw [dropWhile_eq_self_of_head h1,
    dropWhile_eq_self_of_head (fun c hc => h2 c (by rwa [List.head?_reverse] at hc)),
    List.reverse_reverse]

theorem mem_normalizeText {l : Str} {c : Char} (h : c ∈ normalizeText l) :
    c = ' ' ∨ isKeep c = true := by
  unfold normalizeText at h
  have h1 := mem_trimWS h
  rcases mem_collapseAux h1 with rfl | ⟨hc, hws⟩
  · exact Or.inl rfl
  · obtain ⟨d, _, rfl⟩ := List.mem_map.mp hc
    by_cases hk : isKeep d = true
    · rw [replChar, if_pos (by simp [hk])] at hws ⊢
      exact Or.inr hk
    · by_cases hw : isWS d = true
      · rw [replChar, if_pos (by simp [hw])] at hws
        rw [hw] at hws
        exact absurd hws (by simp)
      · rw [replChar, if_neg (by simp [hk, hw])]
        exact Or.inl rfl

theorem spacedOK_normalizeText (l : Str) : SpacedOK (normalizeText l) :=
  spacedOK_trimWS (spacedOK_collapseAux false _)

/-- C9 helper: a string already produced by the normalizer is left unchanged
by another pass. -/
theorem normalizeText_fix {N : Str}
    (hmem : ∀ c ∈ N, c = ' ' ∨ isKeep c = true)
    (hsp : SpacedOK N)
    (hhd : ∀ c, N.head? = some c → isWS c = false)
    (hlast : ∀ c, N.getLast? = some c → isWS c = false) :
    normalizeText N = N := by
  have hlower : N.map jsToLower = N := map_id_of (fun c hc => jsToLower_fix (hmem c hc))
  have hrepl : N.map replChar = N := map_id_of (fun c hc => replChar_fix (hmem c hc))
  have hclw : collapseAux false N = N := by
    refine collapseAux_eq_self (fun c hc hws => ?_) hsp
    rcases hmem c hc with rfl | hk
    · rfl
    · rw [isKeep_not_isWS hk] at hws
      exact absurd hws (by simp)
  have : normalizeText N = trimWS (collapseAux false N) := by
    unfold normalizeText collapseWS
    rw [hlower, hrepl]
  rw [this, hclw, trimWS_eq_self hhd hlast]

/-- C9: the normalizer is idempotent. -/
theorem normalizeText_idempotent (s : Str) :
    normalizeText (normalizeText s) = normalizeText s := by
  refine normalizeText_fix (fun c hc => mem_normalizeText hc) (spacedOK_normalizeText s)
    (fun c hc => ?_) (fun c hc => ?_)
  · exact head_trimWS hc
  · exact getLast_trimWS hc

/-- C9 witness: idempotence applied at a concrete string. -/
theorem normalizeText_idempotent_witness :
    normalizeText (normalizeText "A!!b c".data) = normalizeText "A!!b c".data :=
  normalizeText_idempotent "A!!b c".data

/-! ## Properties of the similarity scorer -/

theorem levFuel_self : ∀ (fuel : Nat) (l : Str), l.length + l.length ≤ fuel →
    levFuel fuel l l = 0 := by
  intro fuel
  induction fuel with
  | zero =>
    intro l h
    cases l with
    | nil => rfl
    | cons c cs => simp at h
  | succ f ih =>
    intro l h
    cases l with
    | nil => rfl
    | cons c cs =>
      have hcs : cs.length + cs.length ≤ f := by
        simp only [List.length_cons] at h
        omega
      show min (levFuel f cs (c :: cs) + 1)
        (min (levFuel f (c :: cs) cs + 1) (levFuel f cs cs + if c = c then 0 else 1)) = 0
      rw [if_pos rfl, ih cs hcs]
      simp

theorem levenshtein_self (l : Str) : levenshtein l l = 0 :=
  levFuel_self _ _ le_rfl

theorem splitSpace_ne_nil (l : Str) : splitSpace l ≠ [] := by
  cases l with
  | nil => simp [splitSpace]
  | cons c cs =>
    by_cases hc : c = ' '
    · simp [splitSpace, hc]
    · simp only [splitSpace, if_neg hc]
      cases splitSpace cs <;> simp

theorem toFinset_splitSpace_card_pos (l : Str) : 0 < (splitSpace l).toFinset.card := by
  refine Finset.card_pos.mpr ?_
  rw [List.toFinset_nonempty_iff]
  exact splitSpace_ne_nil l

theorem jsOr1_pos (n : Nat) : 0 < jsOr1 n := by
  unfold jsOr1
  split <;> omega

theorem jsOr1_of_pos {n : Nat} (h : 0 < n) : jsOr1 n = n := by
  unfold jsOr1
  split <;> omega

theorem jsOr1_eq_max (n : Nat) : jsOr1 n = max n 1 := by
  unfold jsOr1
  split <;> omega

/-- Rounding the exact quotient of a multiple of the denominator. -/
theorem jsRoundDiv_mul {k d : ℤ} (hd : 0 < d) : jsRoundDiv (k * d) d = k := by
  unfold jsRoundDiv
  rw [Int.fdiv_eq_ediv _ (by omega)]
  have h1 : 2 * (k * d) + d = d * (2 * k + 1) := by ring
  have h2 : 2 * d = d * 2 := by ring
  rw [h1, h2, Int.mul_ediv_mul_of_pos _ _ hd]
  omega

/-- C8 counterexample: the string of a single exclamation mark is non-empty,
yet its self-similarity score is 0 (its normalization is empty), refuting
the claim that every non-empty string scores 100 against itself. -/
theorem similarityScore_diag_counterexample :
    "!".data ≠ [] ∧ similarityScore "!".data "!".data = 0 := by
  constructor
  · decide
  · decide

theorem score_diag_helper (m t : ℕ) (hm : 0 < m) (ht : 0 < t) (b : ℤ)
    (hb : b = 0 ∨ b = 1) :
    max 0 (min 100 (jsRoundDiv
      (60 * ((m : ℤ) - ((0 : ℕ) : ℤ)) * (t : ℤ) + 40 * (t : ℤ) * (m : ℤ) +
        10 * b * (m : ℤ) * (t : ℤ)) ((m : ℤ) * (t : ℤ)))) = 100 := by
  have hdpos : (0 : ℤ) < (m : ℤ) * (t : ℤ) := by positivity
  have hnum : 60 * ((m : ℤ) - ((0 : ℕ) : ℤ)) * (t : ℤ) + 40 * (t : ℤ) * (m : ℤ) +
      10 * b * (m : ℤ) * (t : ℤ) = (100 + 10 * b) * ((m : ℤ) * (t : ℤ)) := by
    push_cast
    ring
  rw [hnum, jsRoundDiv_mul hdpos]
  rcases hb with rfl | rfl <;> norm_num

/-- C8 (amended): every score lies in [0, 100], and every string whose
normalization is non-empty scores exactly 100 against itself.  (As stated
the claim fails for strings that normalize to empty, see the
counterexample.) -/
theorem similarityScore_bounds_and_diag :
    (∀ q c : Str, 0 ≤ similarityScore q c ∧ similarityScore q c ≤ 100) ∧
    (∀ a : Str, normalizeText a ≠ [] → similarityScore a a = 100) := by
  constructor
  · intro q c
    simp only [similarityScore]
    by_cases h : normalizeText q = [] ∨ normalizeText c = []
    · rw [if_pos h]
      exact ⟨le_rfl, by norm_num⟩
    · rw [if_neg h]
      exact ⟨le_max_left _ _, max_le (by norm_num) (min_le_left _ _)⟩
  · intro a ha
    simp only [similarityScore]
    rw [if_neg (by simp [ha]), levenshtein_self, Finset.inter_self, Finset.union_self,
      max_self, jsOr1_of_pos (toFinset_splitSpace_card_pos (normalizeText a))]
    exact score_diag_helper _ _
      (jsOr1_pos _) (toFinset_splitSpace_card_pos _) _ (by split <;> simp)

/-- C8 witness: the bounds at a concrete pair and the perfect diagonal score
at a concrete string with non-empty normalization. -/
theorem similarityScore_bounds_and_diag_witness :
    (0 ≤ similarityScore "ab".data "cd".data ∧ similarityScore "ab".data "cd".data ≤ 100) ∧
    similarityScore "ab".data "ab".data = 100 :=
  ⟨similarityScore_bounds_and_diag.1 "ab".data "cd".data,
   similarityScore_bounds_and_diag.2 "ab".data (by decide)⟩

/-! ## The add-stock transaction: atomicity and additive upsert -/

/-- C1: the add-stock transaction is all-or-nothing.  Whenever the route
does not answer with success, in particular whenever any query of the
transaction (the invoice insert or any per-item select, update or insert)
failed, the products table and the invoices table of the returned state are
exactly those of the request state, and the single transaction-failed error
is returned. -/
theorem addStock_atomic (sched : Nat → Bool) (items : List StockItem)
    (info : Option InvoiceInfo) (db₀ : DB)
    (h : (addStock sched items info db₀).2.1 = false) :
    (addStock sched items info db₀).1.products = db₀.products ∧
    (addStock sched items info db₀).1.invoices = db₀.invoices ∧
    (addStock sched items info db₀).2.2 = "Transaction failed".data := by
  unfold addStock at h ⊢
  cases hrun : runAddStock sched items info db₀ with
  | ok s =>
    rw [hrun] at h
    simp at h
  | error e =>
    exact ⟨rfl, rfl, rfl⟩

/-- C1 witness: a run in which the invoice insert (query 0) and the item
select (query 1) succeed and the item update (query 2) throws; the theorem
applies and the tables are untouched, with the transaction-failed error. -/
theorem addStock_atomic_witness :
    (addStock (fun n => decide (n = 2)) [sampleItem] (some sampleInfo) sampleDb1).2.1 = false ∧
    ((addStock (fun n => decide (n = 2)) [sampleItem] (some sampleInfo) sampleDb1).1.products
        = sampleDb1.products ∧
      (addStock (fun n => decide (n = 2)) [sampleItem] (some sampleInfo) sampleDb1).1.invoices
        = sampleDb1.invoices ∧
      (addStock (fun n => decide (n = 2)) [sampleItem] (some sampleInfo) sampleDb1).2.2
        = "Transaction failed".data) :=
  ⟨by decide, addStock_atomic _ _ _ _ (by decide)⟩

/-- C2: reconciliation is an additive, non-idempotent upsert.  When the
select returns a first product row with the item description, the loop body
sets exactly that row's quantity to its old quantity plus the parsed item
quantity; when it returns nothing, a new product row with the item fields is
appended.  Submitting the same single-item payload (quantity 5) twice
through the route against an initially empty catalog yields one product of
quantity 10 and one invoice row per submission, two in total. -/
theorem addStock_additive_upsert :
    (∀ (db : DB) (item : StockItem) (p : Product) (rest : List Product),
      selectByDescription db item.description = p :: rest →
      (applyItem db item).products = db.products.map (fun r =>
        if r.id = p.id then
          { r with quantity := p.quantity + item.quantity.getD 0, last_updated := db.now }
        else r)) ∧
    (∀ (db : DB) (item : StockItem),
      selectByDescription db item.description = [] →
      ∃ r : Product, (applyItem db item).products = db.products ++ [r] ∧
        r.reference = jsOrStrD item.reference [] ∧
        r.description = item.description ∧
        r.quantity = item.quantity.getD 0 ∧
        r.unit_price = item.unit_price.getD 0 ∧
        r.unit = jsOrStrD item.unit []) ∧
    ((addStock noFail [widgetItem] (some sampleInfo)
        ((addStock noFail [widgetItem] (some sampleInfo) emptyDb).1)).1.products.map
        (fun p => p.quantity) = [10] ∧
      (addStock noFail [widgetItem] (some sampleInfo)
        ((addStock noFail [widgetItem] (some sampleInfo) emptyDb).1)).1.products.map
        (fun p => p.description) = ["Widget A".data] ∧
      (addStock noFail [widgetItem] (some sampleInfo) emptyDb).1.invoices.length = 1 ∧
      (addStock noFail [widgetItem] (some sampleInfo)
        ((addStock noFail [widgetItem] (some sampleInfo) emptyDb).1)).1.invoices.length = 2) := by
  refine ⟨?_, ?_, ?_⟩
  · intro db item p rest h
    unfold applyItem applyUpsert
    rw [h]
    rfl
  · intro db item h
    unfold applyItem applyUpsert
    rw [h]
    exact ⟨_, rfl, rfl, rfl, rfl, rfl, rfl⟩
  · refine ⟨by decide, by decide, by decide, by decide⟩

/-- C2 witness: the update branch applied to the sample database where the
item matches the stored product, and the insert branch applied to the empty
catalog. -/
theorem addStock_additive_upsert_witness :
    ((applyItem sampleDb1 sampleItem).products = sampleDb1.products.map (fun r =>
      if r.id = sampleProduct.id then
        { r with
            quantity := sampleProduct.quantity + sampleItem.quantity.getD 0,
            last_updated := sampleDb1.now }
      else r)) ∧
    (∃ r : Product, (applyItem emptyDb widgetItem).products = emptyDb.products ++ [r] ∧
      r.reference = jsOrStrD widgetItem.reference [] ∧
      r.description = widgetItem.description ∧
      r.quantity = widgetItem.quantity.getD 0 ∧
      r.unit_price = widgetItem.unit_price.getD 0 ∧
      r.unit = jsOrStrD widgetItem.unit []) :=
  ⟨addStock_additive_upsert.1 sampleDb1 sampleItem sampleProduct [] (by decide),
   addStock_additive_upsert.2.1 emptyDb widgetItem (by decide)⟩

/-- C10: frame property of the update branch.  When an item matches an
existing product, the loop body leaves the invoices and mappings untouched,
neither adds nor removes product rows, keeps every other product row
literally unchanged, and on the matched row changes only the quantity (to
the stored quantity plus the parsed item quantity) and the last_updated
stamp: reference, description, unit price, unit and category survive even
when the submitted item carries different values. -/
theorem applyItem_frame (db : DB) (item : StockItem) (p : Product) (rest : List Product)
    (h : selectByDescription db item.description = p :: rest) :
    (applyItem db item).invoices = db.invoices ∧
    (applyItem db item).mappings = db.mappings ∧
    (applyItem db item).products.length = db.products.length ∧
    (∀ r ∈ db.products, r.id ≠ p.id → r ∈ (applyItem db item).products) ∧
    (∀ r' ∈ (applyItem db item).products, ∃ r ∈ db.products,
      r'.id = r.id ∧ r'.reference = r.reference ∧ r'.description = r.description ∧
      r'.unit_price = r.unit_price ∧ r'.unit = r.unit ∧ r'.category = r.category ∧
      (r.id ≠ p.id → r' = r) ∧
      (r.id = p.id → r'.quantity = p.quantity + item.quantity.getD 0 ∧
        r'.last_updated = db.now)) := by
  unfold applyItem applyUpsert
  rw [h]
  unfold updateQuantity
  refine ⟨rfl, rfl, by simp, ?_, ?_⟩
  · intro r hr hne
    have heq : (fun q : Product => if q.id = p.id then
        { q with quantity := p.quantity + item.quantity.getD 0, last_updated := db.now }
      else q) r = r := if_neg hne
    exact heq ▸ List.mem_map_of_mem _ hr
  · intro r' hr'
    obtain ⟨r, hr, heq⟩ := List.mem_map.mp hr'
    refine ⟨r, hr, ?_⟩
    by_cases hid : r.id = p.id
    · rw [if_pos hid] at heq
      subst heq
      exact ⟨rfl, rfl, rfl, rfl, rfl, rfl, fun hn => absurd hid hn, fun _ => ⟨rfl, rfl⟩⟩
    · rw [if_neg hid] at heq
      subst heq
      exact ⟨rfl, rfl, rfl, rfl, rfl, rfl, fun _ => rfl, fun he => absurd he hid⟩

/-- C10 witness: the frame property at the sample database, where the item
carries a different unit price and no reference. -/
theorem applyItem_frame_witness :
    (applyItem sampleDb1 sampleItem).invoices = sampleDb1.invoices ∧
    (applyItem sampleDb1 sampleItem).mappings = sampleDb1.mappings ∧
    (applyItem sampleDb1 sampleItem).products.length = sampleDb1.products.length ∧
    (∀ r ∈ sampleDb1.products, r.id ≠ sampleProduct.id →
      r ∈ (applyItem sampleDb1 sampleItem).products) ∧
    (∀ r' ∈ (applyItem sampleDb1 sampleItem).products, ∃ r ∈ sampleDb1.products,
      r'.id = r.id ∧ r'.reference = r.reference ∧ r'.description = r.description ∧
      r'.unit_price = r.unit_price ∧ r'.unit = r.unit ∧ r'.category = r.category ∧
      (r.id ≠ sampleProduct.id → r' = r) ∧
      (r.id = sampleProduct.id → r'.quantity = sampleProduct.quantity + sampleItem.quantity.getD 0 ∧
        r'.last_updated = sampleDb1.now)) :=
  applyItem_frame sampleDb1 sampleItem sampleProduct [] (by decide)

/-! ## Properties of the candidate ranking -/

theorem mem_insertScored {a x : ScoredProduct} : ∀ {l : List ScoredProduct},
    a ∈ insertScored x l ↔ a = x ∨ a ∈ l := by
  intro l
  induction l with
  | nil => simp [insertScored]
  | cons y ys ih =>
    simp only [insertScored]
    by_cases hxy : y.score < x.score
    · rw [if_pos hxy]
      simp only [List.mem_cons]
    · rw [if_neg hxy]
      simp only [List.mem_cons, ih]
      tauto

theorem sorted_insertScored {x : ScoredProduct} : ∀ {l : List ScoredProduct},
    ScoreSorted l → ScoreSorted (insertScored x l) := by
  intro l
  induction l with
  | nil =>
    intro _
    simp [insertScored, ScoreSorted]
  | cons y ys ih =>
    intro h
    simp only [insertScored]
    by_cases hxy : y.score < x.score
    · rw [if_pos hxy]
      refine List.Pairwise.cons ?_ h
      intro b hb
      rcases List.mem_cons.mp hb with rfl | hb'
      · exact le_of_lt hxy
      · exact le_trans (List.rel_of_pairwise_cons h hb') (le_of_lt hxy)
    · rw [if_neg hxy]
      refine List.Pairwise.cons ?_ (ih h.of_cons)
      intro b hb
      rcases mem_insertScored.mp hb with rfl | hb'
      · exact le_of_not_lt hxy
      · exact List.rel_of_pairwise_cons h hb'

theorem sorted_foldl_insert : ∀ (l acc : List ScoredProduct), ScoreSorted acc →
    ScoreSorted (l.foldl (fun acc x => insertScored x acc) acc) := by
  intro l
  induction l with
  | nil => exact fun acc h => h
  | cons x xs ih => exact fun acc h => ih _ (sorted_insertScored h)

theorem sorted_sortScored (l : List ScoredProduct) : ScoreSorted (sortScored l) :=
  sorted_foldl_insert l [] (by simp [ScoreSorted])

theorem mem_foldl_insert (a : ScoredProduct) : ∀ (l acc : List ScoredProduct),
    a ∈ l.foldl (fun acc x => insertScored x acc) acc ↔ a ∈ acc ∨ a ∈ l := by
  intro l
  induction l with
  | nil => simp
  | cons x xs ih =>
    intro acc
    rw [List.foldl_cons, ih, mem_insertScored]
    simp only [List.mem_cons]
    tauto

theorem mem_sortScored {a : ScoredProduct} {l : List ScoredProduct} :
    a ∈ sortScored l ↔ a ∈ l := by
  unfold sortScored
  rw [mem_foldl_insert]
  simp

theorem length_insertScored (x : ScoredProduct) : ∀ (l : List ScoredProduct),
    (insertScored x l).length = l.length + 1 := by
  intro l
  induction l with
  | nil => rfl
  | cons y ys ih =>
    simp only [insertScored]
    by_cases hxy : y.score < x.score
    · rw [if_pos hxy]
      simp
    · rw [if_neg hxy]
      simp [ih]

theorem length_foldl_insert : ∀ (l acc : List ScoredProduct),
    (l.foldl (fun acc x => insertScored x acc) acc).length = acc.length + l.length := by
  intro l
  induction l with
  | nil => simp
  | cons x xs ih =>
    intro acc
    rw [List.foldl_cons, ih, length_insertScored]
    simp only [List.length_cons]
    omega

theorem length_sortScored (l : List ScoredProduct) : (sortScored l).length = l.length := by
  unfold sortScored
  rw [length_foldl_insert]
  simp

theorem rankCandidates_ne_nil {db : DB} {desc : Str} (h : db.products ≠ []) :
    rankCandidates db desc ≠ [] := by
  unfold rankCandidates
  rw [← List.length_pos, List.length_take, length_sortScored, List.length_map]
  unfold catalog
  rw [List.length_map]
  have := List.length_pos.mpr h
  omega

theorem rank_head_ge {db : DB} {desc : Str} {top : ScoredProduct}
    {rest : List ScoredProduct} (h : rankCandidates db desc = top :: rest) :
    ∀ p ∈ catalog db, similarityScore desc (candText p) ≤ top.score := by
  intro p hp
  unfold rankCandidates at h
  have hmem : mkScored desc p ∈ sortScored ((catalog db).map (mkScored desc)) :=
    mem_sortScored.mpr (List.mem_map_of_mem _ hp)
  have hsorted := sorted_sortScored ((catalog db).map (mkScored desc))
  have hdecomp : sortScored ((catalog db).map (mkScored desc)) =
      top :: (rest ++ (sortScored ((catalog db).map (mkScored desc))).drop 5) := by
    conv_lhs => rw [← List.take_append_drop 5 (sortScored ((catalog db).map (mkScored desc)))]
    rw [h, List.cons_append]
  rw [hdecomp] at hmem hsorted
  rcases List.mem_cons.mp hmem with heq | hmem'
  · exact heq ▸ le_rfl
  · exact List.rel_of_pairwise_cons hsorted hmem'

/-- C4: when the oracle is unavailable (every call degrades to null) and an
item has no stored mapping, matching it against a non-empty catalog yields a
heuristic-fallback result (source suggestion) whose match is the top-ranked,
hence best-scoring, catalog candidate; no error is possible since the
per-item logic is total. -/
theorem matchItem_oracle_down (db : DB) (desc : Str)
    (hcat : db.products ≠ [])
    (hmiss : normalizeText desc = [] ∨ lookupMapping db (normalizeText desc) = none) :
    ∃ top rest, rankCandidates db desc = top :: rest ∧
      (matchItem oracleDown db desc).source = "suggestion".data ∧
      (matchItem oracleDown db desc).matched = some (stripScored top) ∧
      ∀ p ∈ catalog db, similarityScore desc (candText p) ≤ top.score := by
  obtain ⟨top, rest, hrank⟩ : ∃ top rest, rankCandidates db desc = top :: rest := by
    cases hr : rankCandidates db desc with
    | nil => exact absurd hr (rankCandidates_ne_nil hcat)
    | cons t r => exact ⟨t, r, rfl⟩
  have hscrut : (if normalizeText desc = [] then (none : Option CatalogRow)
      else lookupMapping db (normalizeText desc)) = none := by
    rcases hmiss with hn | hl
    · rw [if_pos hn]
    · by_cases hn2 : normalizeText desc = []
      · rw [if_pos hn2]
      · rw [if_neg hn2, hl]
  refine ⟨top, rest, hrank, ?_, ?_, rank_head_ge hrank⟩
  · simp only [matchItem]
    rw [hscrut]
    simp [hrank, findBestMatchWithGemini, oracleDown]
  · simp only [matchItem]
    rw [hscrut]
    simp [hrank, findBestMatchWithGemini, oracleDown]

/-- C4 witness: the conclusion at the one-product sample database and an
unmapped description. -/
theorem matchItem_oracle_down_witness :
    ∃ top rest, rankCandidates sampleDb1 "xq".data = top :: rest ∧
      (matchItem oracleDown sampleDb1 "xq".data).source = "suggestion".data ∧
      (matchItem oracleDown sampleDb1 "xq".data).matched = some (stripScored top) ∧
      ∀ p ∈ catalog sampleDb1,
        similarityScore "xq".data (candText p) ≤ top.score :=
  matchItem_oracle_down sampleDb1 "xq".data (by decide) (by decide)

/-- C6 counterexample: the oracle answers with id 99 and confidence 77, 99
is not among the candidate ids (the only candidate id is 1); the route does
use the top candidate as the match, but it labels the result with the
oracle source ai-gemini and the oracle confidence 77, not with the
heuristic source as the claim states. -/
theorem matchItem_source_counterexample :
    (rankCandidates sampleDb1 "ax".data).map ScoredProduct.id = [1] ∧
    (matchItem oracle99 sampleDb1 "ax".data).source = "ai-gemini".data ∧
    (matchItem oracle99 sampleDb1 "ax".data).score = 77 ∧
    (matchItem oracle99 sampleDb1 "ax".data).matched =
      some { id := 1, reference := "r".data, description := "ab".data,
             category := "General".data } :=
  ⟨by decide, by decide, by decide, by decide⟩

/-- C6 (amended): when the oracle returns a truthy best-match id that is not
among the top-5 candidates, the result uses the top deterministic candidate
as its match, but it is attributed to the oracle source (ai-gemini) and
carries the oracle confidence (falling back to the top candidate score only
when that confidence is 0). -/
theorem matchItem_oracle_id_unmatched (oracle : Oracle) (db : DB) (desc : Str)
    (r : AIResponse) (k : ℤ) (top : ScoredProduct) (rest : List ScoredProduct)
    (hmiss : normalizeText desc = [] ∨ lookupMapping db (normalizeText desc) = none)
    (hrank : rankCandidates db desc = top :: rest)
    (hlt : top.score < 100)
    (hor : oracle desc (top :: rest) = some r)
    (hid : r.best_match_id = some k)
    (hk : k ≠ 0)
    (hnot : ∀ p ∈ top :: rest, p.id ≠ k) :
    (matchItem oracle db desc).matched = some (stripScored top) ∧
    (matchItem oracle db desc).source = "ai-gemini".data ∧
    (matchItem oracle db desc).score =
      (if r.confidence ≠ 0 then r.confidence else top.score) := by
  have hscrut : (if normalizeText desc = [] then (none : Option CatalogRow)
      else lookupMapping db (normalizeText desc)) = none := by
    rcases hmiss with hn | hl
    · rw [if_pos hn]
    · by_cases hn2 : normalizeText desc = []
      · rw [if_pos hn2]
      · rw [if_neg hn2, hl]
  have hfind : (top :: rest).find? (fun p => decide (p.id = k)) = none := by
    rw [List.find?_eq_none]
    intro p hp
    simpa using hnot p hp
  refine ⟨?_, ?_, ?_⟩ <;>
    · simp only [matchItem]
      rw [hscrut]
      simp [hrank, findBestMatchWithGemini, hor, hid, hfind, hlt, hk]

/-- C6 witness: the amended statement at the concrete database and oracle of
the counterexample. -/
theorem matchItem_oracle_id_unmatched_witness :
    (matchItem oracle99 sampleDb1 "ax".data).matched =
      some (stripScored ⟨1, "r".data, "ab".data, "General".data, 15⟩) ∧
    (matchItem oracle99 sampleDb1 "ax".data).source = "ai-gemini".data ∧
    (matchItem oracle99 sampleDb1 "ax".data).score =
      (if (77 : ℤ) ≠ 0 then (77 : ℤ)
       else (⟨1, "r".data, "ab".data, "General".data, 15⟩ : ScoredProduct).score) :=
  matchItem_oracle_id_unmatched oracle99 sampleDb1 "ax".data
    ⟨some 99, 77, []⟩ 99 ⟨1, "r".data, "ab".data, "General".data, 15⟩ []
    (by decide) (by decide) (by decide) (by decide) (by decide) (by decide) (by decide)

/-- C7 counterexample: a mapping-resolved item carries an empty suggestions
list even though the top-3 candidate list is non-empty, refuting the claim
that every terminal result carries the top-3 candidates. -/
theorem matchItem_suggestions_counterexample :
    (matchItem oracleDown mappedDb "A!".data).source = "mapping".data ∧
    (matchItem oracleDown mappedDb "A!".data).suggestions = [] ∧
    (rankCandidates mappedDb "A!".data).take 3 ≠ [] :=
  ⟨by decide, by decide, by decide⟩

/-- C7 (amended): oracle- and heuristic-resolved results carry the top-3
scored candidates as suggestions; mapping-resolved results carry an empty
suggestions list. -/
theorem matchItem_suggestions_spec (oracle : Oracle) (db : DB) (desc : Str) :
    (matchItem oracle db desc).suggestions =
      (if normalizeText desc = [] then (rankCandidates db desc).take 3
       else match lookupMapping db (normalizeText desc) with
            | some _ => []
            | none => (rankCandidates db desc).take 3) := by
  by_cases hn : normalizeText desc = []
  · have hs : (if normalizeText desc = [] then (none : Option CatalogRow)
        else lookupMapping db (normalizeText desc)) = none := if_pos hn
    rw [if_pos hn]
    simp only [matchItem]
    rw [hs]
  · cases hl : lookupMapping db (normalizeText desc) with
    | some row =>
      have hs : (if normalizeText desc = [] then (none : Option CatalogRow)
          else lookupMapping db (normalizeText desc)) = some row := by
        rw [if_neg hn, hl]
      rw [if_neg hn]
      simp only [matchItem]
      rw [hs]
    | none =>
      have hs : (if normalizeText desc = [] then (none : Option CatalogRow)
          else lookupMapping db (normalizeText desc)) = none := by
        rw [if_neg hn, hl]
      rw [if_neg hn]
      simp only [matchItem]
      rw [hs]

/-- C7 witness: the amended statement at the mapped sample database. -/
theorem matchItem_suggestions_spec_witness :
    (matchItem oracleDown mappedDb "ax".data).suggestions =
      (if normalizeText "ax".data = [] then (rankCandidates mappedDb "ax".data).take 3
       else match lookupMapping mappedDb (normalizeText "ax".data) with
            | some _ => []
            | none => (rankCandidates mappedDb "ax".data).take 3) :=
  matchItem_suggestions_spec oracleDown mappedDb "ax".data

/-! ## Properties of the mapping store -/

theorem saveMappingRows_hit {rows : List Mapping} {name : Str} {pid : ℤ} {sid : Option Str}
    (h : (rows.find? (fun m => decide (m.supplier_name_normalized = normalizeText name))).isSome
      = true) :
    saveMappingRows rows name pid sid = rows.map (fun m =>
      if m.supplier_name_normalized = normalizeText name then
        { m with product_id := pid, supplier_id := sid }
      else m) := by
  simp only [saveMappingRows]
  rw [if_pos h]

theorem saveMappingRows_miss {rows : List Mapping} {name : Str} {pid : ℤ} {sid : Option Str}
    (h : rows.find? (fun m => decide (m.supplier_name_normalized = normalizeText name)) = none) :
    saveMappingRows rows name pid sid = rows ++
      [{ supplier_name := name, supplier_name_normalized := normalizeText name,
         product_id := pid, supplier_id := sid }] := by
  simp only [saveMappingRows]
  rw [h]
  rfl

theorem keyPred_comp_upd (name : Str) (pid : ℤ) (sid : Option Str) :
    ((fun m : Mapping => decide (m.supplier_name_normalized = normalizeText name)) ∘
      (fun m : Mapping => if m.supplier_name_normalized = normalizeText name then
        { m with product_id := pid, supplier_id := sid } else m)) =
    (fun m : Mapping => decide (m.supplier_name_normalized = normalizeText name)) := by
  funext m
  by_cases hm : m.supplier_name_normalized = normalizeText name <;> simp [hm]

theorem find?_saveMappingRows (rows : List Mapping) (name : Str) (pid : ℤ) (sid : Option Str) :
    ∃ m, (saveMappingRows rows name pid sid).find?
        (fun m => decide (m.supplier_name_normalized = normalizeText name)) = some m ∧
      m.product_id = pid ∧ m.supplier_name_normalized = normalizeText name := by
  cases hfind : rows.find? (fun m => decide (m.supplier_name_normalized = normalizeText name)) with
  | some m₀ =>
    have hhit : (rows.find?
        (fun m => decide (m.supplier_name_normalized = normalizeText name))).isSome = true := by
      rw [hfind]
      rfl
    rw [saveMappingRows_hit hhit]
    have hm0key : m₀.supplier_name_normalized = normalizeText name := by
      simpa using List.find?_some hfind
    rw [List.find?_map, keyPred_comp_upd, hfind, Option.map_some']
    exact ⟨_, rfl, by simp [hm0key], by simp [hm0key]⟩
  | none =>
    rw [saveMappingRows_miss hfind, List.find?_append, hfind, Option.none_or,
      List.find?_cons_of_pos _ (by simp)]
    exact ⟨_, rfl, rfl, rfl⟩

theorem saveMappingRows_map_self (rows : List Mapping) (name : Str) (pid : ℤ)
    (sid : Option Str) :
    (saveMappingRows rows name pid sid).map (fun m =>
      if m.supplier_name_normalized = normalizeText name then
        { m with product_id := pid, supplier_id := sid }
      else m) = saveMappingRows rows name pid sid := by
  apply map_id_of
  intro x hx
  cases hfind : rows.find? (fun m => decide (m.supplier_name_normalized = normalizeText name)) with
  | some m₀ =>
    have hhit : (rows.find?
        (fun m => decide (m.supplier_name_normalized = normalizeText name))).isSome = true := by
      rw [hfind]
      rfl
    rw [saveMappingRows_hit hhit] at hx
    obtain ⟨r, _, rfl⟩ := List.mem_map.mp hx
    by_cases hk : r.supplier_name_normalized = normalizeText name <;> simp [hk]
  | none =>
    rw [saveMappingRows_miss hfind] at hx
    rcases List.mem_append.mp hx with hr | hr
    · have hnp := List.find?_eq_none.mp hfind x hr
      have hk : ¬(x.supplier_name_normalized = normalizeText name) := by simpa using hnp
      simp [hk]
    · simp only [List.mem_singleton] at hr
      subst hr
      simp

theorem saveMappingRows_again (rows : List Mapping) (name : Str) (pid pid' : ℤ)
    (sid sid' : Option Str) :
    saveMappingRows (saveMappingRows rows name pid sid) name pid' sid' =
    (saveMappingRows rows name pid sid).map (fun m =>
      if m.supplier_name_normalized = normalizeText name then
        { m with product_id := pid', supplier_id := sid' }
      else m) := by
  obtain ⟨m, hm, _, _⟩ := find?_saveMappingRows rows name pid sid
  exact saveMappingRows_hit (by rw [hm]; rfl)

theorem countP_saveMappingRows (rows : List Mapping) (name : Str) (pid : ℤ)
    (sid : Option Str)
    (hinv : rows.countP
      (fun m => decide (m.supplier_name_normalized = normalizeText name)) ≤ 1) :
    (saveMappingRows rows name pid sid).countP
      (fun m => decide (m.supplier_name_normalized = normalizeText name)) = 1 := by
  cases hfind : rows.find? (fun m => decide (m.supplier_name_normalized = normalizeText name)) with
  | some m₀ =>
    have hhit : (rows.find?
        (fun m => decide (m.supplier_name_normalized = normalizeText name))).isSome = true := by
      rw [hfind]
      rfl
    rw [saveMappingRows_hit hhit, List.countP_map, keyPred_comp_upd]
    have hpos : 0 < rows.countP
        (fun m => decide (m.supplier_name_normalized = normalizeText name)) := by
      refine List.countP_pos_iff.mpr ?_
      exact ⟨m₀, List.mem_of_find?_eq_some hfind, by simpa using List.find?_some hfind⟩
    omega
  | none =>
    rw [saveMappingRows_miss hfind, List.countP_append,
      List.countP_eq_zero.mpr (List.find?_eq_none.mp hfind)]
    simp [List.countP_cons]

theorem lookup_after_save (db : DB) (rows : List Mapping) (name : Str) (pid : ℤ)
    (sid : Option Str)
    (hdb : db.mappings = saveMappingRows rows name pid sid)
    (hprod : ∃ p ∈ db.products, p.id = pid) :
    (lookupMapping db (normalizeText name)).map CatalogRow.id = some pid := by
  obtain ⟨m, hm, hmpid, _⟩ := find?_saveMappingRows rows name pid sid
  obtain ⟨p₀, hp₀, hpid0⟩ := hprod
  have hsome : (db.products.find? (fun p => decide (p.id = pid))).isSome :=
    List.find?_isSome.mpr ⟨p₀, hp₀, by simp [hpid0]⟩
  obtain ⟨p₁, hp₁⟩ := Option.isSome_iff_exists.mp hsome
  have hp1id : p₁.id = pid := by simpa using List.find?_some hp₁
  unfold lookupMapping
  rw [hdb, hm]
  dsimp only
  rw [hmpid, hp₁]
  dsimp only
  simp [hp1id]

/-- C5: the mapping store is an upsert keyed on the normalized label.  For a
valid request (non-empty label, truthy product ids, target products present,
and the at-most-one-row-per-key invariant of the table) the first save
succeeds and a lookup on the normalized label joins to the product pid;
saving the same label and pid again returns the identical database state;
saving a different pid for the same label succeeds and overwrites, so that
the lookup now joins to the new product and exactly one mapping row with
that normalized label exists. -/
theorem saveMapping_upsert (db : DB) (label : Str) (pid pid' : ℤ) (sid sid' : Option Str)
    (hlabel : label ≠ []) (hpid : pid ≠ 0) (hpid' : pid' ≠ 0)
    (hinv : db.mappings.countP
      (fun m => decide (m.supplier_name_normalized = normalizeText label)) ≤ 1)
    (hprod : ∃ p ∈ db.products, p.id = pid)
    (hprod' : ∃ p ∈ db.products, p.id = pid') :
    ∃ db₁ db₂,
      saveMapping db label pid sid = some db₁ ∧
      (lookupMapping db₁ (normalizeText label)).map CatalogRow.id = some pid ∧
      saveMapping db₁ label pid sid = some db₁ ∧
      saveMapping db₁ label pid' sid' = some db₂ ∧
      (lookupMapping db₂ (normalizeText label)).map CatalogRow.id = some pid' ∧
      db₂.mappings.countP
        (fun m => decide (m.supplier_name_normalized = normalizeText label)) = 1 := by
  have hguard : ¬(label = [] ∨ pid = 0) := fun h => h.elim hlabel hpid
  have hguard' : ¬(label = [] ∨ pid' = 0) := fun h => h.elim hlabel hpid'
  refine ⟨{ db with mappings := saveMappingRows db.mappings label pid sid }, { db with mappings := saveMappingRows (saveMappingRows db.mappings label pid sid) label pid' sid' }, ?_, ?_, ?_, ?_, ?_, ?_⟩
  · unfold saveMapping
    rw [if_neg hguard]
  · exact lookup_after_save _ db.mappings label pid sid rfl hprod
  · unfold saveMapping
    rw [if_neg hguard]
    have hidem : saveMappingRows (saveMappingRows db.mappings label pid sid) label pid sid
        = saveMappingRows db.mappings label pid sid := by
      rw [saveMappingRows_again, saveMappingRows_map_self]
    dsimp only
    rw [hidem]
  · unfold saveMapping
    rw [if_neg hguard']
  · exact lookup_after_save _ (saveMappingRows db.mappings label pid sid) label pid' sid'
      rfl hprod'
  · have hc1 : (saveMappingRows db.mappings label pid sid).countP
        (fun m => decide (m.supplier_name_normalized = normalizeText label)) = 1 :=
      countP_saveMappingRows db.mappings label pid sid hinv
    exact countP_saveMappingRows _ label pid' sid' (by rw [hc1])

/-- C5 witness: the upsert properties at the two-product sample database,
saving the label ACME first for product 1 and then for product 2. -/
theorem saveMapping_upsert_witness :
    ∃ db₁ db₂,
      saveMapping twoProductDb "ACME".data 1 none = some db₁ ∧
      (lookupMapping db₁ (normalizeText "ACME".data)).map CatalogRow.id = some 1 ∧
      saveMapping db₁ "ACME".data 1 none = some db₁ ∧
      saveMapping db₁ "ACME".data 2 none = some db₂ ∧
      (lookupMapping db₂ (normalizeText "ACME".data)).map CatalogRow.id = some 2 ∧
      db₂.mappings.countP
        (fun m => decide (m.supplier_name_normalized = normalizeText "ACME".data)) = 1 :=
  saveMapping_upsert twoProductDb "ACME".data 1 2 none none (by decide) (by decide)
    (by decide) (by decide) (by decide) (by decide)

end StockGate
